import Mathlib

/-!
Verification of `inst/python/get_dewey_urls.py`.

The script reads two positional command-line arguments (API key and dataset
id), authenticates, fetches the dataset's file-metadata records, and prints a
single JSON object to standard output.  Below, the script's data flow is
embedded shallowly:

* file-metadata records are `RawRecord`s whose fields may be absent
  (a Python `KeyError` on access), with `Record` the fully-populated form;
* the two `re.sub` calls on line 24-25 of the source are modelled
  character-exactly, including Python's semantics where `.` does not match a
  newline and `$` matches at the end of the string or just before a newline
  that ends the string;
* `json.dumps` with its default settings (`ensure_ascii=True`, separators
  `", "` and `": "`) is modelled by `dumpsJson`;
* the sequencing of field accesses and the uncaught `IndexError`/`KeyError`
  failures are modelled with `Except PyError`; an `Except.error` result means
  the process dies before printing anything, with a non-zero exit status.
-/

namespace DeweyUrls

/-- Uncaught Python exceptions the script can die with: `IndexError` from
`sys.argv[i]` / `files[0]` on too-short sequences, and `KeyError` from
`record["field"]` when the field is absent. -/
inductive PyError where
  | indexError : PyError
  | keyError : String → PyError
deriving DecidableEq

/-- A file-metadata record as the script actually consumes it: each field
access `f["..."]` can fail, so every field is optional.  `partition_key` is
`Option (Option String)` because the field may be absent (outer layer) and,
when present, its value may be JSON null (inner layer). -/
structure RawRecord where
  link : Option String
  file_name : Option String
  file_extension : Option String
  partition_key : Option (Option String)
  file_size_bytes : Option Int
deriving DecidableEq

/-- A fully-populated file-metadata record, as described by the data model. -/
structure Record where
  link : String
  file_name : String
  file_extension : String
  partition_key : Option String
  file_size_bytes : Int
deriving DecidableEq

/-- View a complete record as a raw record in which every field is present. -/
def Record.toRaw (r : Record) : RawRecord :=
  ⟨some r.link, some r.file_name, some r.file_extension, some r.partition_key,
    some r.file_size_bytes⟩

/-! ### The two `re.sub` calls (source lines 24-25)

`re.sub(r"[-_]\d.*$", "", file_name)` scans `file_name` left to right for the
leftmost position where a hyphen or underscore is followed by a digit and the
rest of the pattern matches.  In Python, `.` matches any character except a
newline, and (outside MULTILINE mode) `$` matches at the end of the string or
just before a newline that is the last character.  Hence `.*$` starting from
some position succeeds exactly when the remaining characters contain no
newline, or contain exactly one newline which is the string's final character
(in which case that final newline is left in place). -/

/-- Match `.*$` against `l` (Python semantics): returns `some rem` on success,
where `rem` is the part of `l` left unconsumed (`[]`, or `['\n']` when the
string ends with a newline that `$` matched in front of). -/
def dotStarDollar : List Char → Option (List Char)
  | [] => some []
  | c :: rest =>
    if c = '\n' then
      if rest = [] then some ['\n'] else none
    else dotStarDollar rest

/-- `re.sub(r"[-_]\d.*$", "", ·)` on the character list: scan for the leftmost
match of `[-_]\d.*$` and delete it.  After a match at most a final newline
remains, in which the pattern (two characters minimum) cannot match again. -/
def sub1 : List Char → List Char
  | [] => []
  | c :: rest =>
    match rest with
    | [] => [c]
    | d :: rest2 =>
      if (c = '-' ∨ c = '_') ∧ d.isDigit = true then
        match dotStarDollar rest2 with
        | some rem => rem
        | none => c :: sub1 (d :: rest2)
      else c :: sub1 (d :: rest2)

/-- The characters of the literal `"-data"`. -/
def dataChars : List Char := ['-', 'd', 'a', 't', 'a']

/-- Try to match `-data$` at the current position: succeeds when the list
starts with `-data` and what follows is empty or a single final newline
(Python's `$`), returning the unconsumed remainder. -/
def dataDollar (l : List Char) : Option (List Char) :=
  match l with
  | '-' :: 'd' :: 'a' :: 't' :: 'a' :: rest =>
    if rest = [] ∨ rest = ['\n'] then some rest else none
  | _ => none

/-- `re.sub(r"-data$", "", ·)` on the character list: scan for the leftmost
match of `-data$` and delete it; at most a final newline remains, in which
the literal cannot match again. -/
def sub2 : List Char → List Char
  | [] => []
  | c :: rest =>
    match dataDollar (c :: rest) with
    | some rem => rem
    | none => c :: sub2 rest

/-- `parent_folder` (source lines 24-25): the two successive `re.sub`
cleanups applied to the first record's `file_name`. -/
def parent_folder (file_name : String) : String :=
  ⟨sub2 (sub1 file_name.data)⟩

/-! ### The cleanup as worded by the specification (§4.4)

These definitions follow the spec's words, for comparison with the source's
`re.sub`-faithful `parent_folder` above. -/

/-- Modelled from the spec §4.4(a): "Remove a trailing pattern consisting of
a hyphen-or-underscore followed by a digit and any remaining characters to
the end of the string" — delete from the leftmost hyphen/underscore-then-digit
occurrence through the very end of the string. -/
def specCleanup1 : List Char → List Char
  | [] => []
  | c :: rest =>
    match rest with
    | [] => [c]
    | d :: rest2 =>
      if (c = '-' ∨ c = '_') ∧ d.isDigit = true then []
      else c :: specCleanup1 (d :: rest2)

/-- Modelled from the spec §4.4(b): "Remove a trailing literal `-data` if
present." -/
def specCleanup2 (l : List Char) : List Char :=
  if dataChars <:+ l then l.take (l.length - 5) else l

/-- Modelled from the spec §4.4: both cleanups in order, on a string. -/
def specFolderName (file_name : String) : String :=
  ⟨specCleanup2 (specCleanup1 file_name.data)⟩

/-! ### `json.dumps` with default settings

The script serializes one dict with `json.dumps(...)` and prints it.  Default
settings: `ensure_ascii=True` (every non-ASCII and control character is
escaped), item separator `", "`, key separator `": "`, integers rendered in
decimal.  `Json` is the value tree the dict literal builds, `dumpsJson` the
serialized character list. -/

/-- JSON values, as built by the script's dict literal. -/
inductive Json where
  | null : Json
  | str : String → Json
  | num : Int → Json
  | arr : List Json → Json
  | obj : List (String × Json) → Json

/-- The hexadecimal digit characters used by CPython's `\uXXXX` escapes
(lowercase). -/
def hexDigit : Nat → Char
  | 0 => '0' | 1 => '1' | 2 => '2' | 3 => '3' | 4 => '4' | 5 => '5'
  | 6 => '6' | 7 => '7' | 8 => '8' | 9 => '9' | 10 => 'a' | 11 => 'b'
  | 12 => 'c' | 13 => 'd' | 14 => 'e' | _ => 'f'

/-- A `\uXXXX` escape for a code unit below `0x10000`. -/
def uEscape (n : Nat) : List Char :=
  ['\\', 'u', hexDigit (n / 4096 % 16), hexDigit (n / 256 % 16),
    hexDigit (n / 16 % 16), hexDigit (n % 16)]

/-- How `json.dumps` (with `ensure_ascii=True`) writes one character of a
string: the two-character short escapes for `"`,`\`, backspace, form feed,
newline, carriage return and tab; `\uXXXX` (with a surrogate pair above
`0xFFFF`) for every other control or non-ASCII character; the character
itself otherwise. -/
def escapeChar (c : Char) : List Char :=
  if c = '"' then ['\\', '"']
  else if c = '\\' then ['\\', '\\']
  else if c = '\n' then ['\\', 'n']
  else if c = '\r' then ['\\', 'r']
  else if c = '\t' then ['\\', 't']
  else if c = Char.ofNat 8 then ['\\', 'b']
  else if c = Char.ofNat 12 then ['\\', 'f']
  else if c.toNat < 32 ∨ 126 < c.toNat then
    if c.toNat ≤ 65535 then uEscape c.toNat
    else uEscape (55296 + (c.toNat - 65536) / 1024) ++
      uEscape (56320 + (c.toNat - 65536) % 1024)
  else [c]

/-- Escape every character of a string body in turn. -/
def escapeList : List Char → List Char
  | [] => []
  | c :: rest => escapeChar c ++ escapeList rest

/-- A JSON string literal: quote, escaped body, quote. -/
def encodeStr (s : String) : List Char :=
  '"' :: (escapeList s.data ++ ['"'])

/-- The decimal digit character for `d < 10`. -/
def digitChar : Nat → Char
  | 0 => '0' | 1 => '1' | 2 => '2' | 3 => '3' | 4 => '4' | 5 => '5'
  | 6 => '6' | 7 => '7' | 8 => '8' | _ => '9'

/-- Decimal digits of `n`, most significant first, accumulated onto `acc`;
`fuel` bounds the recursion (any `fuel > log10 n` gives the exact digits, and
`natChars` passes `n + 1`). -/
def natCharsCore (fuel : Nat) (n : Nat) (acc : List Char) : List Char :=
  match fuel with
  | 0 => acc
  | fuel' + 1 =>
    if n < 10 then digitChar n :: acc
    else natCharsCore fuel' (n / 10) (digitChar (n % 10) :: acc)

/-- The decimal representation of a natural number. -/
def natChars (n : Nat) : List Char := natCharsCore (n + 1) n []

/-- The decimal representation of an integer, as Python's `repr`/`json.dumps`
writes it: an optional leading minus sign, then the digits. -/
def intChars : Int → List Char
  | Int.ofNat n => natChars n
  | Int.negSucc m => '-' :: natChars (m + 1)

/-- Left brace, kept out of string literals. -/
def lbrace : Char := Char.ofNat 123

/-- Right brace, kept out of string literals. -/
def rbrace : Char := Char.ofNat 125

mutual

/-- `json.dumps` with its default separators, producing the character list of
the serialized value. -/
def dumpsJson : Json → List Char
  | Json.null => ['n', 'u', 'l', 'l']
  | Json.str s => encodeStr s
  | Json.num n => intChars n
  | Json.arr xs => '[' :: (dumpsArr xs ++ [']'])
  | Json.obj kvs => lbrace :: (dumpsObj kvs ++ [rbrace])

/-- Array elements joined by `", "`. -/
def dumpsArr : List Json → List Char
  | [] => []
  | [j] => dumpsJson j
  | j :: k :: rest => dumpsJson j ++ (',' :: ' ' :: dumpsArr (k :: rest))

/-- Object entries `key: value` joined by `", "`. -/
def dumpsObj : List (String × Json) → List Char
  | [] => []
  | [(k, v)] => encodeStr k ++ (':' :: ' ' :: dumpsJson v)
  | (k, v) :: e :: rest =>
    encodeStr k ++ (':' :: ' ' :: dumpsJson v) ++
      (',' :: ' ' :: dumpsObj (e :: rest))

end

/-- The serialized JSON text as a string. -/
def dumps (j : Json) : String := ⟨dumpsJson j⟩

/-- Look a key up in a serialized-to-be object, first binding wins (as a JSON
consumer reading the script's output would). -/
def lookupPairs : List (String × Json) → String → Option Json
  | [], _ => none
  | (k, v) :: rest, key => if k = key then some v else lookupPairs rest key

/-- The value a JSON object associates to a key. -/
def jsonField (j : Json) (key : String) : Option Json :=
  match j with
  | Json.obj kvs => lookupPairs kvs key
  | _ => none

/-! ### The script body

The source runs, in order: `urls = [f["link"] for f in files]` (line 19),
`file_name = files[0]["file_name"]` (line 23), the two `re.sub` cleanups
(lines 24-25), `file_extension = files[0]["file_extension"]` (line 27), and
then the dict literal inside `print(json.dumps(...))` evaluates
`files[0]["partition_key"]` (line 36) and `sum(f["file_size_bytes"] for f in
files)` (line 39) before anything is written.  Any `KeyError`/`IndexError`
raised along the way aborts the process with no output. -/

/-- `f["key"]`: the value when the field is present, `KeyError` otherwise. -/
def getKey {α : Type} (key : String) (v : Option α) : Except PyError α :=
  match v with
  | some x => Except.ok x
  | none => Except.error (PyError.keyError key)

/-- `[f["link"] for f in files]` (line 19): left-to-right, failing at the
first record whose `link` field is absent. -/
def extractUrls : List RawRecord → Except PyError (List String)
  | [] => Except.ok []
  | f :: rest =>
    match getKey "link" f.link with
    | Except.error e => Except.error e
    | Except.ok u =>
      match extractUrls rest with
      | Except.error e => Except.error e
      | Except.ok us => Except.ok (u :: us)

/-- `files[0]`: the first record, or `IndexError` on an empty listing. -/
def firstRecord (files : List RawRecord) : Except PyError RawRecord :=
  match files with
  | [] => Except.error PyError.indexError
  | f :: _ => Except.ok f

/-- `sum(f["file_size_bytes"] for f in files)` (lines 39-41): left-to-right,
failing at the first record whose `file_size_bytes` field is absent. -/
def sumSizes : List RawRecord → Except PyError Int
  | [] => Except.ok 0
  | f :: rest =>
    match getKey "file_size_bytes" f.file_size_bytes with
    | Except.error e => Except.error e
    | Except.ok n =>
      match sumSizes rest with
      | Except.error e => Except.error e
      | Except.ok m => Except.ok (n + m)

/-- The five values the dict literal (lines 32-42) is built from. -/
structure Output where
  urls : List String
  parent_folder : String
  file_extension : String
  partition_key : Option String
  file_size_bytes : Int
deriving DecidableEq

/-- The script's computation of the output values, with every fallible access
in the source's evaluation order. -/
def buildOutput (files : List RawRecord) : Except PyError Output :=
  match extractUrls files with
  | Except.error e => Except.error e
  | Except.ok urls =>
    match firstRecord files with
    | Except.error e => Except.error e
    | Except.ok first =>
      match getKey "file_name" first.file_name with
      | Except.error e => Except.error e
      | Except.ok file_name =>
        match getKey "file_extension" first.file_extension with
        | Except.error e => Except.error e
        | Except.ok file_extension =>
          match getKey "partition_key" first.partition_key with
          | Except.error e => Except.error e
          | Except.ok partition_key =>
            match sumSizes files with
            | Except.error e => Except.error e
            | Except.ok total =>
              Except.ok ⟨urls, parent_folder file_name, file_extension,
                partition_key, total⟩

/-- The dict literal of lines 32-42, keys in source order; a `None`
partition key becomes JSON `null`. -/
def outputToJson (o : Output) : Json :=
  Json.obj
    [("urls", Json.arr (o.urls.map Json.str)),
     ("parent_folder", Json.str o.parent_folder),
     ("file_extension", Json.str o.file_extension),
     ("partition_key",
       match o.partition_key with
       | none => Json.null
       | some s => Json.str s),
     ("file_size_bytes", Json.num o.file_size_bytes)]

/-- Everything the script writes to standard output given the listing result:
`print(json.dumps(...))`, i.e. the serialized object followed by one newline —
or an uncaught error and no output at all. -/
def scriptStdout (files : List RawRecord) : Except PyError String :=
  match buildOutput files with
  | Except.error e => Except.error e
  | Except.ok o => Except.ok (dumps (outputToJson o) ++ "\n")

/-- `sys.argv[i]`: `IndexError` when fewer than `i + 1` arguments exist. -/
def argNth (argv : List String) (i : Nat) : Except PyError String :=
  match argv.get? i with
  | some s => Except.ok s
  | none => Except.error PyError.indexError

/-- The whole script, from `sys.argv` (index 0 is the script path, as in
Python) to standard output.  `set_api_key` is an external call whose
process-wide side effect is not observable here; `get_dataset_files` is the
external listing call, passed in as `listing`. -/
def runScript (argv : List String) (listing : String → List RawRecord) :
    Except PyError String :=
  match argNth argv 1 with
  | Except.error e => Except.error e
  | Except.ok _api_key =>
    match argNth argv 2 with
    | Except.error e => Except.error e
    | Except.ok data_id => scriptStdout (listing data_id)

/-! ### Lemmas about the folder-name cleanup -/

/-- On newline-free input, `.*$` consumes everything. -/
theorem dotStarDollar_of_nonl {l : List Char} (h : '\n' ∉ l) :
    dotStarDollar l = some [] := by
  induction l with
  | nil => rfl
  | cons c rest ih =>
    have hc : ¬ c = '\n' := fun hc => h (hc ▸ List.mem_cons_self c rest)
    have hrest : '\n' ∉ rest := fun hr => h (List.mem_cons_of_mem c hr)
    simp [dotStarDollar, hc, ih hrest]

/-- On newline-free input, the source's first `re.sub` coincides with the
spec's "delete from the separator-digit occurrence to the end". -/
theorem sub1_eq_spec {l : List Char} (h : '\n' ∉ l) :
    sub1 l = specCleanup1 l := by
  induction l with
  | nil => rfl
  | cons c rest ih =>
    have hrest : '\n' ∉ rest := fun hr => h (List.mem_cons_of_mem c hr)
    match rest with
    | [] => rfl
    | d :: rest2 =>
      have hrest2 : '\n' ∉ rest2 := fun hr => hrest (List.mem_cons_of_mem d hr)
      by_cases hm : (c = '-' ∨ c = '_') ∧ d.isDigit = true
      · simp [sub1, specCleanup1, hm, dotStarDollar_of_nonl hrest2]
      · simp [sub1, specCleanup1, hm, ih hrest]

/-- The spec's first cleanup only deletes a suffix. -/
theorem specCleanup1_pre (l : List Char) : specCleanup1 l <+: l := by
  induction l with
  | nil => exact List.prefix_refl []
  | cons c rest ih =>
    match rest with
    | [] => exact List.prefix_refl [c]
    | d :: rest2 =>
      by_cases hm : (c = '-' ∨ c = '_') ∧ d.isDigit = true
      · simp [specCleanup1, hm]
      · simpa [specCleanup1, hm, List.cons_prefix_cons] using ih

/-- Inversion for `dataDollar`: a successful match means the list is exactly
`-data` followed by the unconsumed remainder, which is empty or one final
newline. -/
theorem dataDollar_eq_some {l rem : List Char} (h : dataDollar l = some rem) :
    l = dataChars ++ rem ∧ (rem = [] ∨ rem = ['\n']) := by
  unfold dataDollar at h
  split at h
  · split at h
    · rename_i rest hrest
      cases h
      exact ⟨by simp [dataChars], hrest⟩
    · cases h
  · cases h

/-- On newline-free input, the source's second `re.sub` coincides with the
spec's "remove a trailing literal `-data` if present". -/
theorem sub2_eq_spec {l : List Char} (h : '\n' ∉ l) :
    sub2 l = specCleanup2 l := by
  induction l with
  | nil =>
    simp [sub2, specCleanup2, List.suffix_nil, dataChars]
  | cons c rest ih =>
    cases hd : dataDollar (c :: rest) with
    | some rem =>
      obtain ⟨hl, hrem⟩ := dataDollar_eq_some hd
      have hrem0 : rem = [] := by
        rcases hrem with h0 | h0
        · exact h0
        · exfalso
          apply h
          rw [hl, h0]
          simp
      subst hrem0
      rw [List.append_nil] at hl
      have hs : dataChars <:+ (c :: rest) := hl ▸ List.suffix_refl dataChars
      have hlen : (c :: rest).length = 5 := by rw [hl]; rfl
      simp [sub2, hd, specCleanup2, hs, hlen]
    | none =>
      have hrest : '\n' ∉ rest := fun hr => h (List.mem_cons_of_mem c hr)
      have hstep : sub2 (c :: rest) = c :: sub2 rest := by simp [sub2, hd]
      rw [hstep, ih hrest]
      by_cases hs : dataChars <:+ (c :: rest)
      · rcases List.suffix_cons_iff.mp hs with heq | hsuf
        · exfalso
          have : dataDollar (c :: rest) = some [] := by rw [← heq]; rfl
          rw [this] at hd
          cases hd
        · have h5 : 5 ≤ rest.length := by
            simpa [dataChars] using hsuf.length_le
          have harith : rest.length + 1 - 5 = (rest.length - 5) + 1 := by omega
          simp [specCleanup2, hs, hsuf, harith, List.take_succ_cons]
      · have hs' : ¬ dataChars <:+ rest :=
          fun hsuf => hs (hsuf.trans (List.suffix_cons c rest))
        simp [specCleanup2, hs, hs']

/-- The spec's second cleanup only deletes a suffix. -/
theorem specCleanup2_pre (l : List Char) : specCleanup2 l <+: l := by
  unfold specCleanup2
  split
  · exact List.take_prefix _ l
  · exact List.prefix_refl l

/-- On newline-free file names, the source's derivation equals the spec's
word-for-word procedure. -/
theorem parent_folder_eq_spec {s : String} (h : '\n' ∉ s.data) :
    parent_folder s = specFolderName s := by
  have h1 : '\n' ∉ specCleanup1 s.data :=
    fun hm => h ((specCleanup1_pre s.data).subset hm)
  unfold parent_folder specFolderName
  rw [sub1_eq_spec h, sub2_eq_spec h1]

/-- On newline-free file names, the derived folder name is a prefix of the
file name. -/
theorem parent_folder_pre {s : String} (h : '\n' ∉ s.data) :
    (parent_folder s).data <+: s.data := by
  have h1 : '\n' ∉ specCleanup1 s.data :=
    fun hm => h ((specCleanup1_pre s.data).subset hm)
  show sub2 (sub1 s.data) <+: s.data
  rw [sub1_eq_spec h, sub2_eq_spec h1]
  exact (specCleanup2_pre (specCleanup1 s.data)).trans (specCleanup1_pre s.data)

/-! ### The serialized output is newline-free

`print` appends the only newline the script emits; `json.dumps` escapes every
newline inside the data, so the JSON text itself never contains one. -/

/-- Hexadecimal digit characters are not newlines. -/
theorem hexDigit_ne_nl (d : Nat) : hexDigit d ≠ '\n' := by
  unfold hexDigit
  split <;> decide

/-- Decimal digit characters are not newlines. -/
theorem digitChar_ne_nl (d : Nat) : digitChar d ≠ '\n' := by
  unfold digitChar
  split <;> decide

/-- `\uXXXX` escapes contain no newline. -/
theorem uEscape_nonl (n : Nat) : '\n' ∉ uEscape n := by
  intro hm
  simp only [uEscape, List.mem_cons, List.not_mem_nil, or_false] at hm
  rcases hm with h | h | h | h | h | h
  · exact absurd h (by decide)
  · exact absurd h (by decide)
  · exact hexDigit_ne_nl _ h.symm
  · exact hexDigit_ne_nl _ h.symm
  · exact hexDigit_ne_nl _ h.symm
  · exact hexDigit_ne_nl _ h.symm

/-- Escaping one character yields no newline, whatever the character. -/
theorem escapeChar_nonl (c : Char) : '\n' ∉ escapeChar c := by
  unfold escapeChar
  split_ifs with h1 h2 h3 h4 h5 h6 h7 h8 h9
  · decide
  · decide
  · decide
  · decide
  · decide
  · decide
  · decide
  · exact uEscape_nonl _
  · intro hm
    rcases List.mem_append.mp hm with hm | hm
    · exact uEscape_nonl _ hm
    · exact uEscape_nonl _ hm
  · intro hm
    simp only [List.mem_cons, List.not_mem_nil, or_false] at hm
    exact h3 hm.symm

/-- Escaping a whole string yields no newline. -/
theorem escapeList_nonl (l : List Char) : '\n' ∉ escapeList l := by
  induction l with
  | nil => simp [escapeList]
  | cons c rest ih =>
    intro hm
    rcases List.mem_append.mp hm with hm | hm
    · exact escapeChar_nonl c hm
    · exact ih hm

/-- A JSON string literal contains no newline. -/
theorem encodeStr_nonl (s : String) : '\n' ∉ encodeStr s := by
  intro hm
  simp only [encodeStr, List.mem_cons, List.mem_append, List.not_mem_nil,
    or_false] at hm
  rcases hm with h | h | h
  · exact absurd h (by decide)
  · exact escapeList_nonl _ h
  · exact absurd h (by decide)

/-- Decimal digit runs contain no newline beyond the accumulator's. -/
theorem natCharsCore_nonl (fuel n : Nat) (acc : List Char) (hacc : '\n' ∉ acc) :
    '\n' ∉ natCharsCore fuel n acc := by
  induction fuel generalizing n acc with
  | zero => exact hacc
  | succ fuel ih =>
    unfold natCharsCore
    split
    · intro hm
      rcases List.mem_cons.mp hm with h | hm
      · exact digitChar_ne_nl _ h.symm
      · exact hacc hm
    · refine ih _ _ ?_
      intro hm
      rcases List.mem_cons.mp hm with h | hm
      · exact digitChar_ne_nl _ h.symm
      · exact hacc hm

/-- The decimal form of an integer contains no newline. -/
theorem intChars_nonl (n : Int) : '\n' ∉ intChars n := by
  cases n with
  | ofNat m => exact natCharsCore_nonl _ _ _ (by simp)
  | negSucc m =>
    intro hm
    rcases List.mem_cons.mp hm with h | hm
    · exact absurd h (by decide)
    · exact natCharsCore_nonl _ _ _ (by simp) hm

mutual

/-- No serialized JSON value contains a literal newline. -/
theorem dumpsJson_nonl : (j : Json) → '\n' ∉ dumpsJson j
  | Json.null => by
      intro hm
      simp only [dumpsJson, List.mem_cons, List.not_mem_nil, or_false] at hm
      rcases hm with h | h | h | h <;> exact absurd h (by decide)
  | Json.str s => encodeStr_nonl s
  | Json.num n => intChars_nonl n
  | Json.arr xs => by
      intro hm
      simp only [dumpsJson, List.mem_cons, List.mem_append, List.not_mem_nil,
        or_false] at hm
      rcases hm with h | h | h
      · exact absurd h (by decide)
      · exact dumpsArr_nonl xs h
      · exact absurd h (by decide)
  | Json.obj kvs => by
      intro hm
      simp only [dumpsJson, List.mem_cons, List.mem_append, List.not_mem_nil,
        or_false] at hm
      rcases hm with h | h | h
      · exact absurd h (by decide)
      · exact dumpsObj_nonl kvs h
      · exact absurd h (by decide)

/-- No serialized JSON array body contains a literal newline. -/
theorem dumpsArr_nonl : (xs : List Json) → '\n' ∉ dumpsArr xs
  | [] => by simp [dumpsArr]
  | [j] => by simpa [dumpsArr] using dumpsJson_nonl j
  | j :: k :: rest => by
      intro hm
      simp only [dumpsArr, List.mem_append, List.mem_cons] at hm
      rcases hm with hm | h | h | hm
      · exact dumpsJson_nonl j hm
      · exact absurd h (by decide)
      · exact absurd h (by decide)
      · exact dumpsArr_nonl (k :: rest) hm

/-- No serialized JSON object body contains a literal newline. -/
theorem dumpsObj_nonl : (kvs : List (String × Json)) → '\n' ∉ dumpsObj kvs
  | [] => by simp [dumpsObj]
  | [(k, v)] => by
      intro hm
      simp only [dumpsObj, List.mem_append, List.mem_cons] at hm
      rcases hm with hm | h | h | hm
      · exact encodeStr_nonl k hm
      · exact absurd h (by decide)
      · exact absurd h (by decide)
      · exact dumpsJson_nonl v hm
  | (k, v) :: e :: rest => by
      intro hm
      simp only [dumpsObj, List.mem_append, List.mem_cons] at hm
      rcases hm with (hm | h | h | hm) | h | h | hm
      · exact encodeStr_nonl k hm
      · exact absurd h (by decide)
      · exact absurd h (by decide)
      · exact dumpsJson_nonl v hm
      · exact absurd h (by decide)
      · exact absurd h (by decide)
      · exact dumpsObj_nonl (e :: rest) hm

end

/-- The serialized JSON text is a single line: it contains no newline. -/
theorem dumps_nonl (j : Json) : '\n' ∉ (dumps j).data := dumpsJson_nonl j

/-! ### Lemmas about the script body -/

/-- A successful field access means the field was present with that value. -/
theorem getKey_ok {α : Type} {key : String} {v : Option α} {x : α}
    (h : getKey key v = Except.ok x) : v = some x := by
  cases v with
  | none => exact Except.noConfusion h
  | some y =>
    simp only [getKey] at h
    injection h with h2
    rw [h2]

/-- On complete records, the url comprehension returns every `link`, in
order. -/
theorem extractUrls_toRaw (rs : List Record) :
    extractUrls (rs.map Record.toRaw) = Except.ok (rs.map Record.link) := by
  induction rs with
  | nil => rfl
  | cons r rs ih => simp [extractUrls, Record.toRaw, getKey, ih]

/-- On complete records, the size aggregation returns the sum of the
`file_size_bytes` fields. -/
theorem sumSizes_toRaw (rs : List Record) :
    sumSizes (rs.map Record.toRaw) =
      Except.ok ((rs.map Record.file_size_bytes).sum) := by
  induction rs with
  | nil => rfl
  | cons r rs ih => simp [sumSizes, Record.toRaw, getKey, ih]

/-- On a nonempty listing of complete records the script's output values are
exactly: all links in order, the cleaned-up first file name, the first
record's extension and partition key, and the sum of all sizes. -/
theorem buildOutput_toRaw (r : Record) (rs : List Record) :
    buildOutput ((r :: rs).map Record.toRaw) =
      Except.ok ⟨(r :: rs).map Record.link, parent_folder r.file_name,
        r.file_extension, r.partition_key,
        ((r :: rs).map Record.file_size_bytes).sum⟩ := by
  have hu := extractUrls_toRaw (r :: rs)
  have hs := sumSizes_toRaw (r :: rs)
  simp only [List.map_cons, Record.toRaw] at hu hs ⊢
  simp only [buildOutput, hu, hs, firstRecord, getKey]

/-- The url comprehension can only die with `KeyError('link')`. -/
theorem extractUrls_error {files : List RawRecord} {e : PyError}
    (h : extractUrls files = Except.error e) : e = PyError.keyError "link" := by
  induction files generalizing e with
  | nil => exact Except.noConfusion h
  | cons f rest ih =>
    cases hl : f.link with
    | none =>
      simp only [extractUrls, hl, getKey] at h
      injection h with h2
      exact h2.symm
    | some u =>
      cases hr : extractUrls rest with
      | error e2 =>
        simp only [extractUrls, hl, getKey, hr] at h
        injection h with h2
        rw [← h2]
        exact ih hr
      | ok us =>
        simp only [extractUrls, hl, getKey, hr] at h
        exact Except.noConfusion h

/-- The size aggregation can only die with `KeyError('file_size_bytes')`. -/
theorem sumSizes_error {files : List RawRecord} {e : PyError}
    (h : sumSizes files = Except.error e) :
    e = PyError.keyError "file_size_bytes" := by
  induction files generalizing e with
  | nil => exact Except.noConfusion h
  | cons f rest ih =>
    cases hl : f.file_size_bytes with
    | none =>
      simp only [sumSizes, hl, getKey] at h
      injection h with h2
      exact h2.symm
    | some n =>
      cases hr : sumSizes rest with
      | error e2 =>
        simp only [sumSizes, hl, getKey, hr] at h
        injection h with h2
        rw [← h2]
        exact ih hr
      | ok m =>
        simp only [sumSizes, hl, getKey, hr] at h
        exact Except.noConfusion h

/-- If the url comprehension succeeded, every record had its `link`. -/
theorem extractUrls_ok_mem {files : List RawRecord} {us : List String}
    (h : extractUrls files = Except.ok us) :
    ∀ f ∈ files, f.link ≠ none := by
  induction files generalizing us with
  | nil => intro f hf; cases hf
  | cons g rest ih =>
    intro f hf
    cases hl : g.link with
    | none =>
      simp only [extractUrls, hl, getKey] at h
      exact Except.noConfusion h
    | some u =>
      cases hr : extractUrls rest with
      | error e2 =>
        simp only [extractUrls, hl, getKey, hr] at h
        exact Except.noConfusion h
      | ok us2 =>
        rcases List.mem_cons.mp hf with hfg | hfm
        · rw [hfg, hl]; exact fun hc => Option.noConfusion hc
        · exact ih hr f hfm

/-- If the size aggregation succeeded, every record had its
`file_size_bytes`. -/
theorem sumSizes_ok_mem {files : List RawRecord} {n : Int}
    (h : sumSizes files = Except.ok n) :
    ∀ f ∈ files, f.file_size_bytes ≠ none := by
  induction files generalizing n with
  | nil => intro f hf; cases hf
  | cons g rest ih =>
    intro f hf
    cases hl : g.file_size_bytes with
    | none =>
      simp only [sumSizes, hl, getKey] at h
      exact Except.noConfusion h
    | some u =>
      cases hr : sumSizes rest with
      | error e2 =>
        simp only [sumSizes, hl, getKey, hr] at h
        exact Except.noConfusion h
      | ok m =>
        rcases List.mem_cons.mp hf with hfg | hfm
        · rw [hfg, hl]; exact fun hc => Option.noConfusion hc
        · exact ih hr f hfm

/-- `files[0]` succeeds exactly on a nonempty listing, with the head. -/
theorem firstRecord_ok {files : List RawRecord} {f : RawRecord} :
    firstRecord files = Except.ok f ↔ files.head? = some f := by
  cases files <;> simp [firstRecord]

/-- Inversion of a successful run: the head record determined the folder
name, extension and partition key, and every record had its `link` and
`file_size_bytes`. -/
theorem buildOutput_ok_inv {files : List RawRecord} {o : Output}
    (h : buildOutput files = Except.ok o) :
    ∃ f, files.head? = some f ∧
      (∃ fn, f.file_name = some fn ∧ o.parent_folder = parent_folder fn) ∧
      f.file_extension = some o.file_extension ∧
      f.partition_key = some o.partition_key ∧
      (∀ g ∈ files, g.link ≠ none) ∧
      (∀ g ∈ files, g.file_size_bytes ≠ none) := by
  unfold buildOutput at h
  cases hu : extractUrls files with
  | error e => simp only [hu] at h; exact Except.noConfusion h
  | ok urls =>
  simp only [hu] at h
  cases hf : firstRecord files with
  | error e => simp only [hf] at h; exact Except.noConfusion h
  | ok first =>
  simp only [hf] at h
  cases hn : getKey "file_name" first.file_name with
  | error e => simp only [hn] at h; exact Except.noConfusion h
  | ok fn =>
  simp only [hn] at h
  cases he : getKey "file_extension" first.file_extension with
  | error e => simp only [he] at h; exact Except.noConfusion h
  | ok fe =>
  simp only [he] at h
  cases hp : getKey "partition_key" first.partition_key with
  | error e => simp only [hp] at h; exact Except.noConfusion h
  | ok pk =>
  simp only [hp] at h
  cases hs : sumSizes files with
  | error e => simp only [hs] at h; exact Except.noConfusion h
  | ok total =>
  simp only [hs] at h
  injection h with h2
  refine ⟨first, firstRecord_ok.mp hf, ⟨fn, getKey_ok hn, ?_⟩, ?_, ?_,
    extractUrls_ok_mem hu, sumSizes_ok_mem hs⟩
  · rw [← h2]
  · rw [← h2]
    exact getKey_ok he
  · rw [← h2]
    exact getKey_ok hp

/-- On a nonempty listing, the script never dies with an `IndexError`:
`files[0]` succeeds and every other failure is a `KeyError`. -/
theorem buildOutput_cons_error {f : RawRecord} {rest : List RawRecord}
    {e : PyError} (h : buildOutput (f :: rest) = Except.error e) :
    ∃ k, e = PyError.keyError k := by
  unfold buildOutput at h
  cases hu : extractUrls (f :: rest) with
  | error e2 =>
    simp only [hu] at h
    injection h with h2
    exact ⟨"link", by rw [← h2, extractUrls_error hu]⟩
  | ok urls =>
  simp only [hu] at h
  simp only [show firstRecord (f :: rest) = Except.ok f from rfl] at h
  cases hn : getKey "file_name" f.file_name with
  | error e2 =>
    simp only [hn] at h
    injection h with h2
    cases hfn : f.file_name with
    | none =>
      refine ⟨"file_name", ?_⟩
      rw [hfn] at hn
      simp only [getKey] at hn
      injection hn with h3
      rw [← h2, ← h3]
    | some fn => rw [hfn] at hn; exact Except.noConfusion hn
  | ok fn =>
  simp only [hn] at h
  cases he : getKey "file_extension" f.file_extension with
  | error e2 =>
    simp only [he] at h
    injection h with h2
    cases hfe : f.file_extension with
    | none =>
      refine ⟨"file_extension", ?_⟩
      rw [hfe] at he
      simp only [getKey] at he
      injection he with h3
      rw [← h2, ← h3]
    | some fe => rw [hfe] at he; exact Except.noConfusion he
  | ok fe =>
  simp only [he] at h
  cases hp : getKey "partition_key" f.partition_key with
  | error e2 =>
    simp only [hp] at h
    injection h with h2
    cases hfp : f.partition_key with
    | none =>
      refine ⟨"partition_key", ?_⟩
      rw [hfp] at hp
      simp only [getKey] at hp
      injection hp with h3
      rw [← h2, ← h3]
    | some pk => rw [hfp] at hp; exact Except.noConfusion hp
  | ok pk =>
  simp only [hp] at h
  cases hs : sumSizes (f :: rest) with
  | error e2 =>
    simp only [hs] at h
    injection h with h2
    exact ⟨"file_size_bytes", by rw [← h2, sumSizes_error hs]⟩
  | ok total =>
    simp only [hs] at h
    exact Except.noConfusion h

/-! ### The claims -/

/-- C1 fails as literally stated: the first cleanup does not always remove
"all remaining characters to the end of the string".  On `"a_1x\n"` Python's
`$` matches just before the trailing newline, so the code removes `_1x` but
keeps the final newline, yielding `"a\n"`, while the described
remove-to-the-end procedure yields `"a"`. -/
theorem C1_folder_derivation_cex :
    parent_folder "a_1x\n" ≠ specFolderName "a_1x\n" ∧
    parent_folder "a_1x\n" = "a\n" ∧ specFolderName "a_1x\n" = "a" := by
  decide

/-- C1 (amended): folder-name derivation is a pure function of the first
record's file name, computed by the two successive cleanups; on every file
name containing no newline character it agrees exactly with the spec's
procedure (remove from a hyphen-or-underscore-then-digit occurrence to the
end, then strip a trailing `-data`), and the three example mappings hold.
(File names containing a newline follow Python's regex semantics instead:
`.` does not cross a newline and `$` also matches before a trailing
newline.) -/
theorem C1_folder_derivation :
    (∀ s : String, '\n' ∉ s.data → parent_folder s = specFolderName s) ∧
    parent_folder "airline-employment-data_0_0_0.snappy.parquet" =
      "airline-employment" ∧
    parent_folder "sales-data_1.csv" = "sales" ∧
    parent_folder "report.csv" = "report.csv" :=
  ⟨fun _ h => parent_folder_eq_spec h, by decide, by decide, by decide⟩

/-- C1 witness: the equivalence applies at a concrete newline-free name. -/
theorem C1_folder_derivation_witness :
    '\n' ∉ ("data-set_42.csv" : String).data ∧
    parent_folder "data-set_42.csv" = specFolderName "data-set_42.csv" :=
  ⟨by decide, C1_folder_derivation.1 "data-set_42.csv" (by decide)⟩

/-- C2: on a listing of `N ≥ 1` records, the output's "urls" value is exactly
the `link` of each record, in the order the listing returned them, hence has
exactly `N` entries. -/
theorem C2_urls_all_links (r : Record) (rs : List Record) :
    ∃ o : Output, buildOutput ((r :: rs).map Record.toRaw) = Except.ok o ∧
      o.urls = (r :: rs).map Record.link ∧
      o.urls.length = (r :: rs).length :=
  ⟨_, buildOutput_toRaw r rs, rfl, by simp⟩

/-- C2 witness: the statement at a concrete two-record listing. -/
theorem C2_urls_all_links_witness :
    ∃ o : Output,
      buildOutput ([⟨"u1", "f1", ".csv", none, 1⟩,
        ⟨"u2", "f2", ".csv", none, 2⟩].map Record.toRaw) = Except.ok o ∧
      o.urls = [⟨"u1", "f1", ".csv", none, 1⟩,
        (⟨"u2", "f2", ".csv", none, 2⟩ : Record)].map Record.link ∧
      o.urls.length = [⟨"u1", "f1", ".csv", none, 1⟩,
        (⟨"u2", "f2", ".csv", none, 2⟩ : Record)].length :=
  C2_urls_all_links ⟨"u1", "f1", ".csv", none, 1⟩ [⟨"u2", "f2", ".csv", none, 2⟩]

/-- C3: on a listing of `N ≥ 1` records, the output's "file_size_bytes" is
the exact integer sum of the records' `file_size_bytes` fields (Lean's `Int`
is arbitrary precision, as is Python's). -/
theorem C3_size_sum (r : Record) (rs : List Record) :
    ∃ o : Output, buildOutput ((r :: rs).map Record.toRaw) = Except.ok o ∧
      o.file_size_bytes = ((r :: rs).map Record.file_size_bytes).sum :=
  ⟨_, buildOutput_toRaw r rs, rfl⟩

/-- C3 witness: the statement at a concrete listing with large sizes. -/
theorem C3_size_sum_witness :
    ∃ o : Output,
      buildOutput ([⟨"u1", "f1", ".csv", none, 5000000000⟩,
        ⟨"u2", "f2", ".csv", none, 7⟩].map Record.toRaw) = Except.ok o ∧
      o.file_size_bytes = ([⟨"u1", "f1", ".csv", none, 5000000000⟩,
        (⟨"u2", "f2", ".csv", none, 7⟩ : Record)].map
          Record.file_size_bytes).sum :=
  C3_size_sum ⟨"u1", "f1", ".csv", none, 5000000000⟩
    [⟨"u2", "f2", ".csv", none, 7⟩]

/-- C4: the output's "partition_key" and "file_extension" are the first
record's fields, verbatim; a `None` partition key is serialized as JSON
`null` under the "partition_key" key. -/
theorem C4_first_record_fields (r : Record) (rs : List Record) :
    ∃ o : Output, buildOutput ((r :: rs).map Record.toRaw) = Except.ok o ∧
      o.file_extension = r.file_extension ∧
      o.partition_key = r.partition_key ∧
      (r.partition_key = none →
        jsonField (outputToJson o) "partition_key" = some Json.null) := by
  refine ⟨_, buildOutput_toRaw r rs, rfl, rfl, ?_⟩
  intro hnone
  simp [outputToJson, jsonField, lookupPairs, hnone]

/-- C4 witness: the statement at a concrete record with a null partition
key. -/
theorem C4_first_record_fields_witness :
    ∃ o : Output,
      buildOutput ([(⟨"u", "n.csv", ".csv", none, 3⟩ : Record)].map
        Record.toRaw) = Except.ok o ∧
      o.file_extension = (⟨"u", "n.csv", ".csv", none, 3⟩ : Record).file_extension ∧
      o.partition_key = (⟨"u", "n.csv", ".csv", none, 3⟩ : Record).partition_key ∧
      ((⟨"u", "n.csv", ".csv", none, 3⟩ : Record).partition_key = none →
        jsonField (outputToJson o) "partition_key" = some Json.null) :=
  C4_first_record_fields ⟨"u", "n.csv", ".csv", none, 3⟩ []

/-- C5: on the success path the script's entire standard output is one JSON
object (the serialization of a five-entry object whose keys are, in order,
"urls", "parent_folder", "file_extension", "partition_key",
"file_size_bytes") followed by one newline; the object's text contains no
newline, so the output is exactly one line and nothing else. -/
theorem C5_single_json_line (r : Record) (rs : List Record) :
    ∃ o : Output,
      scriptStdout ((r :: rs).map Record.toRaw) =
        Except.ok (dumps (outputToJson o) ++ "\n") ∧
      (∃ kvs, outputToJson o = Json.obj kvs ∧
        kvs.map Prod.fst =
          ["urls", "parent_folder", "file_extension", "partition_key",
            "file_size_bytes"]) ∧
      '\n' ∉ (dumps (outputToJson o)).data := by
  refine ⟨⟨(r :: rs).map Record.link, parent_folder r.file_name,
    r.file_extension, r.partition_key,
    ((r :: rs).map Record.file_size_bytes).sum⟩, ?_, ⟨_, rfl, rfl⟩,
    dumps_nonl _⟩
  simp only [scriptStdout, buildOutput_toRaw r rs]

/-- C5 witness: the statement at a concrete one-record listing. -/
theorem C5_single_json_line_witness :
    ∃ o : Output,
      scriptStdout ([(⟨"u", "sales-data_1.csv", ".csv", some "k", 9⟩ :
        Record)].map Record.toRaw) =
        Except.ok (dumps (outputToJson o) ++ "\n") ∧
      (∃ kvs, outputToJson o = Json.obj kvs ∧
        kvs.map Prod.fst =
          ["urls", "parent_folder", "file_extension", "partition_key",
            "file_size_bytes"]) ∧
      '\n' ∉ (dumps (outputToJson o)).data :=
  C5_single_json_line ⟨"u", "sales-data_1.csv", ".csv", some "k", 9⟩ []

/-- C6: when the listing call returns an empty sequence, the script dies
with the uncaught `IndexError` from `files[0]` — an error, not a zero-sum
success, raised before the size aggregation runs and before anything is
written to standard output (the result is `Except.error`, carrying the
`IndexError` of the first-record access rather than any `KeyError`). -/
theorem C6_empty_listing_fails (a0 a1 a2 : String) (rest : List String)
    (listing : String → List RawRecord) (h : listing a2 = []) :
    runScript (a0 :: a1 :: a2 :: rest) listing =
      Except.error PyError.indexError := by
  have hrun : runScript (a0 :: a1 :: a2 :: rest) listing =
      scriptStdout (listing a2) := rfl
  rw [hrun, h]
  rfl

/-- C6 witness: a concrete invocation whose listing is empty. -/
theorem C6_empty_listing_fails_witness :
    ((fun _ : String => ([] : List RawRecord)) "d" = []) ∧
    runScript ["prog", "key", "d"] (fun _ => []) =
      Except.error PyError.indexError :=
  ⟨rfl, C6_empty_listing_fails "prog" "key" "d" [] (fun _ => []) rfl⟩

/-- C7: with fewer than two command-line arguments (`sys.argv` holds the
script path plus the arguments, so fewer than three entries), the script
dies with the uncaught `IndexError` from `sys.argv[1]`/`sys.argv[2]`; the
result is `Except.error`, so no JSON reaches standard output and the process
exits non-zero. -/
theorem C7_missing_args_fail (argv : List String)
    (listing : String → List RawRecord) (h : argv.length < 3) :
    runScript argv listing = Except.error PyError.indexError := by
  rcases argv with _ | ⟨a, _ | ⟨b, _ | ⟨c, rest⟩⟩⟩
  · rfl
  · rfl
  · rfl
  · exfalso
    simp only [List.length_cons] at h
    omega

/-- C7 witness: a concrete invocation with only the script path. -/
theorem C7_missing_args_fail_witness :
    (["prog"] : List String).length < 3 ∧
    runScript ["prog"] (fun _ => []) = Except.error PyError.indexError :=
  ⟨by decide, C7_missing_args_fail ["prog"] (fun _ => []) (by decide)⟩

/-- C8: whenever an accessed field is missing — `link` or `file_size_bytes`
of any record, or `file_name`, `file_extension` or `partition_key` of the
first record — the script dies with the uncaught `KeyError` naming some
missing key, and (being `Except.error`) writes nothing to standard
output. -/
theorem C8_missing_field_keyerror (files : List RawRecord)
    (h : (∃ f ∈ files, f.link = none ∨ f.file_size_bytes = none) ∨
      (∃ f, files.head? = some f ∧
        (f.file_name = none ∨ f.file_extension = none ∨
          f.partition_key = none))) :
    ∃ k, scriptStdout files = Except.error (PyError.keyError k) := by
  obtain ⟨f0, rest, rfl⟩ : ∃ f0 rest, files = f0 :: rest := by
    rcases h with ⟨f, hf, _⟩ | ⟨f, hf, _⟩
    · rcases files with _ | ⟨f0, rest⟩
      · cases hf
      · exact ⟨f0, rest, rfl⟩
    · rcases files with _ | ⟨f0, rest⟩
      · exact Option.noConfusion hf
      · exact ⟨f0, rest, rfl⟩
  cases hb : buildOutput (f0 :: rest) with
  | error e =>
    obtain ⟨k, hk⟩ := buildOutput_cons_error hb
    refine ⟨k, ?_⟩
    simp only [scriptStdout, hb, hk]
  | ok o =>
    exfalso
    obtain ⟨f, hhead, ⟨fn, hfn, _⟩, hfe, hpk, hlinks, hsizes⟩ :=
      buildOutput_ok_inv hb
    have hf0 : f0 = f := by simpa using hhead
    rcases h with ⟨g, hg, hcase⟩ | ⟨g, hg, hcase⟩
    · rcases hcase with hc | hc
      · exact hlinks g hg hc
      · exact hsizes g hg hc
    · have hgf : f0 = g := by simpa using hg
      rcases hcase with hc | hc | hc
      · rw [← hgf, hf0, hfn] at hc
        exact Option.noConfusion hc
      · rw [← hgf, hf0, hfe] at hc
        exact Option.noConfusion hc
      · rw [← hgf, hf0, hpk] at hc
        exact Option.noConfusion hc

/-- C8 witness: a concrete record whose `link` field is absent. -/
theorem C8_missing_field_keyerror_witness :
    (∃ f ∈ [(⟨none, some "n", some "e", some none, some 1⟩ : RawRecord)],
      f.link = none ∨ f.file_size_bytes = none) ∧
    ∃ k, scriptStdout [(⟨none, some "n", some "e", some none, some 1⟩ :
      RawRecord)] = Except.error (PyError.keyError k) :=
  ⟨⟨_, List.mem_singleton.mpr rfl, Or.inl rfl⟩,
    C8_missing_field_keyerror _
      (Or.inl ⟨_, List.mem_singleton.mpr rfl, Or.inl rfl⟩)⟩

/-- C9 fails as literally stated: for a file name with a trailing newline
the cleanup can delete an interior substring while keeping the final
newline.  `parent_folder "a-1b\n" = "a\n"`, which is not a prefix of
`"a-1b\n"`. -/
theorem C9_folder_name_shortens_cex :
    ¬ ((parent_folder "a-1b\n").data <+: ("a-1b\n" : String).data) := by
  decide

/-- C9 (amended): for every file name containing no newline character, the
derived parent folder is a (possibly equal) prefix of the file name — the
two cleanups only delete a suffix.  (With a newline present, Python's `$`
can end a deleted span before a trailing newline, so the result need not be
a prefix.) -/
theorem C9_folder_name_shortens (s : String) (h : '\n' ∉ s.data) :
    (parent_folder s).data <+: s.data :=
  parent_folder_pre h

/-- C9 witness: the prefix property at a concrete name. -/
theorem C9_folder_name_shortens_witness :
    '\n' ∉ ("report-data_7.csv" : String).data ∧
    (parent_folder "report-data_7.csv").data <+:
      ("report-data_7.csv" : String).data :=
  ⟨by decide, C9_folder_name_shortens "report-data_7.csv" (by decide)⟩

/-- C10: "parent_folder", "file_extension" and "partition_key" depend only
on the first record — two successful runs whose listings share the same
first record produce identical values for these three outputs, however the
remaining records differ. -/
theorem C10_head_determines (files1 files2 : List RawRecord)
    (o1 o2 : Output) (hhead : files1.head? = files2.head?)
    (h1 : buildOutput files1 = Except.ok o1)
    (h2 : buildOutput files2 = Except.ok o2) :
    o1.parent_folder = o2.parent_folder ∧
    o1.file_extension = o2.file_extension ∧
    o1.partition_key = o2.partition_key := by
  obtain ⟨f, hf, ⟨fn, hfn, hpf⟩, hfe, hpk, _, _⟩ := buildOutput_ok_inv h1
  obtain ⟨g, hg, ⟨gn, hgn, hpg⟩, hge, hgk, _, _⟩ := buildOutput_ok_inv h2
  rw [hhead] at hf
  rw [hg] at hf
  injection hf with hfg
  subst hfg
  rw [hfn] at hgn
  injection hgn with hn2
  refine ⟨?_, ?_, ?_⟩
  · rw [hpf, hpg, hn2]
  · exact Option.some.inj (hfe.symm.trans hge)
  · exact Option.some.inj (hpk.symm.trans hgk)

/-- C10 witness: two concrete listings with the same first record and
different tails. -/
theorem C10_head_determines_witness :
    buildOutput [(⟨some "u", some "f-data_1.x", some ".x", some none,
      some 4⟩ : RawRecord)] = Except.ok ⟨["u"], "f", ".x", none, 4⟩ ∧
    buildOutput [(⟨some "u", some "f-data_1.x", some ".x", some none,
      some 4⟩ : RawRecord), ⟨some "v", some "g", some ".y",
      some (some "p"), some 6⟩] = Except.ok ⟨["u", "v"], "f", ".x", none, 10⟩ ∧
    ([(⟨some "u", some "f-data_1.x", some ".x", some none, some 4⟩ :
      RawRecord)].head? = [(⟨some "u", some "f-data_1.x", some ".x",
      some none, some 4⟩ : RawRecord), ⟨some "v", some "g", some ".y",
      some (some "p"), some 6⟩].head?) ∧
    ((⟨["u"], "f", ".x", none, 4⟩ : Output).parent_folder =
      (⟨["u", "v"], "f", ".x", none, 10⟩ : Output).parent_folder ∧
     (⟨["u"], "f", ".x", none, 4⟩ : Output).file_extension =
      (⟨["u", "v"], "f", ".x", none, 10⟩ : Output).file_extension ∧
     (⟨["u"], "f", ".x", none, 4⟩ : Output).partition_key =
      (⟨["u", "v"], "f", ".x", none, 10⟩ : Output).partition_key) :=
  ⟨rfl, rfl, rfl,
    C10_head_determines
      [⟨some "u", some "f-data_1.x", some ".x", some none, some 4⟩]
      [⟨some "u", some "f-data_1.x", some ".x", some none, some 4⟩,
        ⟨some "v", some "g", some ".y", some (some "p"), some 6⟩]
      ⟨["u"], "f", ".x", none, 4⟩ ⟨["u", "v"], "f", ".x", none, 10⟩
      rfl rfl rfl⟩

end DeweyUrls
